import Mathlib

/-!
Verification of the statement-of-account transaction pipeline: value/date
normalization, field resolution, header location, transaction building
(FileUpload component), manual payment entry (ManualEntryForm component),
and the ledger merge / running-balance engine (generateStatementPDF).

Modelling conventions:
* JS numbers are modelled as rationals, with a separate `nan` constructor
  (`JSNum`) where the source can produce `NaN`.
* JS strings are Lean `String`s; cell values coming out of the spreadsheet
  are modelled as their string renderings (the claims under study only
  exercise string-valued cells), except dates, whose normalizer also
  receives numeric serial values and is modelled on a sum type.
* `new Date(str)` generic parsing is modelled by its ECMA-262-specified
  portion (canonical `YYYY-MM-DD` strings denoting valid calendar dates);
  all other formats are implementation-defined and modelled as unparseable.
* `Array.prototype.sort` (a stable sort) is modelled by `List.insertionSort`,
  which is stable; no theorem below depends on the order of date ties.
-/

namespace SOA

/-! ### Basic JS string helpers -/

/-- One step of JS `String.prototype.trim`: drop leading whitespace. -/
def trimLeft (l : List Char) : List Char := l.dropWhile Char.isWhitespace

/-- JS `String.prototype.trim` on a character list. -/
def jsTrim (l : List Char) : List Char :=
  ((l.dropWhile Char.isWhitespace).reverse.dropWhile Char.isWhitespace).reverse

/-- JS `trim` at string level. -/
def strTrim (s : String) : String := ⟨jsTrim s.toList⟩

/-- JS `toLowerCase` (ASCII portion) on a character list. -/
def lowerList (l : List Char) : List Char := l.map Char.toLower

/-- JS `toLowerCase` at string level. -/
def strLower (s : String) : String := ⟨s.toList.map Char.toLower⟩

/-- JS `String.prototype.includes` on character lists
    (empty needle is contained in everything, as in JS). -/
def containsList : List Char → List Char → Bool
  | hay, needle =>
    match hay with
    | [] => needle.isEmpty
    | _ :: t => needle.isPrefixOf hay || containsList t needle

/-- JS `hay.includes(needle)` at string level. -/
def strContains (hay needle : String) : Bool := containsList hay.toList needle.toList

/-- JS `hay.includes(c)` for a single character. -/
def strContainsChar (hay : String) (c : Char) : Bool := hay.toList.contains c

/-- Lexicographic order on character lists by code point: the order JS
    `<=` computes on (BMP) strings. -/
def lexLe : List Char → List Char → Bool
  | [], _ => true
  | _ :: _, [] => false
  | a :: as, b :: bs => if a < b then true else if a = b then lexLe as bs else false

/-- JS string comparison `a <= b` (lexicographic by code unit). -/
def strLe (a b : String) : Bool := lexLe a.toList b.toList

/-- `String(s).replace(/,/g, '')`. -/
def stripCommas (s : String) : String := ⟨s.toList.filter (fun c => c ≠ ',')⟩

/-- `String(s).replace(/[(),]/g, '')` (used on parenthesised amounts). -/
def stripParensCommas (s : String) : String :=
  ⟨s.toList.filter (fun c => c ≠ '(' && c ≠ ')' && c ≠ ',')⟩

/-! ### JS numbers with NaN -/

/-- A JS number: either an actual (idealized, rational) value or `NaN`. -/
inductive JSNum
  | nan
  | num (q : ℚ)
deriving DecidableEq, Repr

namespace JSNum

/-- JS addition (NaN-absorbing). -/
def add : JSNum → JSNum → JSNum
  | nan, _ => nan
  | num _, nan => nan
  | num a, num b => num (a + b)

instance : Add JSNum := ⟨add⟩

instance : Zero JSNum := ⟨num 0⟩

/-- JS unary minus. -/
def neg : JSNum → JSNum
  | nan => nan
  | num a => num (-a)

/-- JS `Math.abs`. -/
def abs : JSNum → JSNum
  | nan => nan
  | num a => num |a|

/-- JS `x > 0` (false for NaN). -/
def gtZero : JSNum → Bool
  | nan => false
  | num a => decide (0 < a)

/-- JS `x < 0` (false for NaN). -/
def ltZero : JSNum → Bool
  | nan => false
  | num a => decide (a < 0)

/-- Result of `parseFloat`-style functions: `none` is JS `NaN`. -/
def ofOption : Option ℚ → JSNum
  | none => nan
  | some q => num q

@[simp] theorem num_add_num (a b : ℚ) : num a + num b = num (a + b) := rfl

@[simp] theorem nan_add (x : JSNum) : nan + x = nan := rfl

@[simp] theorem add_nan (x : JSNum) : x + nan = nan := by cases x <;> rfl

theorem zero_def : (0 : JSNum) = num 0 := rfl

@[simp] theorem num_zero : num 0 = 0 := rfl

theorem add_assoc' (a b c : JSNum) : a + b + c = a + (b + c) := by
  cases a <;> cases b <;> cases c <;> simp [add_assoc]

theorem add_comm' (a b : JSNum) : a + b = b + a := by
  cases a <;> cases b <;> simp [add_comm]

theorem zero_add' (a : JSNum) : 0 + a = a := by
  cases a
  · rfl
  · exact congrArg num (zero_add _)

theorem add_zero' (a : JSNum) : a + 0 = a := by
  cases a
  · rfl
  · exact congrArg num (add_zero _)

instance : AddCommMonoid JSNum where
  add_assoc := add_assoc'
  zero_add := zero_add'
  add_zero := add_zero'
  add_comm := add_comm'
  nsmul := nsmulRec

end JSNum

/-! ### JS `parseFloat` (decimal core; exponents not used by the inputs under study) -/

/-- Value of a list of decimal digits. -/
def digitsToNat (l : List Char) : Nat :=
  l.foldl (fun acc c => acc * 10 + (c.toNat - 48)) 0

/--
JS `parseFloat`: skip leading whitespace, optional sign, then the longest
prefix of the form `digits [. digits]`; `none` models `NaN`.
-/
def jsParseFloat (s : String) : Option ℚ :=
  let l := s.toList.dropWhile Char.isWhitespace
  let (isNeg, l) : Bool × List Char :=
    match l with
    | '-' :: t => (true, t)
    | '+' :: t => (false, t)
    | _ => (false, l)
  let ds := l.takeWhile Char.isDigit
  let rest := l.dropWhile Char.isDigit
  let fs :=
    match rest with
    | '.' :: t => t.takeWhile Char.isDigit
    | _ => []
  if ds.isEmpty && fs.isEmpty then none
  else
    let n : Int := (digitsToNat ds : Int) * (10 : Int) ^ fs.length + (digitsToNat fs : Int)
    some (Rat.divInt (if isNeg then -n else n) ((10 : Int) ^ fs.length))

/-! ### Date normalization (`parseDate` in the FileUpload component) -/

/-- A raw spreadsheet cell as seen by the date normalizer. -/
inductive RawCell
  | num (q : ℚ)
  | str (s : String)
deriving DecidableEq

/-- Two-character zero padding, JS `padStart(2, '0')` on a 1- or 2-char string. -/
def pad2 (l : List Char) : List Char :=
  if l.length = 1 then '0' :: l else l

/--
Deterministic matcher for the anchored regex
`^(\d{1,2})[\/\-](\d{1,2})[\/\-](\d{4})` (prefix match, remainder ignored),
returning the day, month and year capture groups.
-/
def dmyMatch (l : List Char) : Option (List Char × List Char × List Char) :=
  let d := l.takeWhile Char.isDigit
  if 1 ≤ d.length ∧ d.length ≤ 2 then
    match l.dropWhile Char.isDigit with
    | s₁ :: r₂ =>
      if s₁ = '/' ∨ s₁ = '-' then
        let m := r₂.takeWhile Char.isDigit
        if 1 ≤ m.length ∧ m.length ≤ 2 then
          match r₂.dropWhile Char.isDigit with
          | s₂ :: r₄ =>
            if s₂ = '/' ∨ s₂ = '-' then
              let y := r₄.take 4
              if y.length = 4 ∧ y.all Char.isDigit then some (d, m, y) else none
            else none
          | [] => none
        else none
      else none
    | [] => none
  else none

/-- Number of days in a month of the proleptic Gregorian calendar. -/
def daysInMonth (y : Int) (m : Nat) : Nat :=
  if m = 2 then
    if y % 4 = 0 ∧ (y % 100 ≠ 0 ∨ y % 400 = 0) then 29 else 28
  else if m = 4 ∨ m = 6 ∨ m = 9 ∨ m = 11 then 30
  else 31

/-- Civil-from-days: Gregorian date of `z` days since 1970-01-01. -/
def civilFromDays (z : Int) : Int × Nat × Nat :=
  let z := z + 719468
  let era : Int := Int.fdiv z 146097
  let doe : Nat := (z - era * 146097).toNat
  let yoe : Nat := (doe - doe / 1460 + doe / 36524 - doe / 146096) / 365
  let y : Int := (yoe : Int) + era * 400
  let doy : Nat := doe - (365 * yoe + yoe / 4 - yoe / 100)
  let mp : Nat := (5 * doy + 2) / 153
  let d : Nat := doy - (153 * mp + 2) / 5 + 1
  let m : Nat := if mp < 10 then mp + 3 else mp - 9
  ((if m ≤ 2 then y + 1 else y), m, d)

/-- Decimal digits of a natural number, padded on the left to width `w`. -/
def natDigitsPad (n w : Nat) : List Char :=
  let s := (Nat.toDigits 10 n)
  List.replicate (w - s.length) '0' ++ s

/-- The date part of JS `Date.prototype.toISOString` for a time value in ms. -/
def toISODatePart (ms : Int) : String :=
  let days := Int.fdiv ms 86400000
  let c := civilFromDays days
  let y := c.1
  let m := c.2.1
  let d := c.2.2
  let ystr : List Char :=
    if 0 ≤ y ∧ y ≤ 9999 then natDigitsPad y.toNat 4
    else if y < 0 then '-' :: natDigitsPad (-y).toNat 6
    else '+' :: natDigitsPad y.toNat 6
  ⟨ystr ++ '-' :: (natDigitsPad m 2 ++ '-' :: natDigitsPad d 2)⟩

/-- Digit-list parser (no sign). -/
def digitListVal (l : List Char) : Option Nat :=
  if l ≠ [] ∧ l.all Char.isDigit then some (digitsToNat l) else none

/--
The ECMA-262-specified portion of `new Date(str)` string parsing: a
canonical `YYYY-MM-DD` string denoting a valid calendar date. All other
(implementation-defined) formats are modelled as unparseable.
-/
def isoParse (l : List Char) : Option (List Char) :=
  match l with
  | [y₁, y₂, y₃, y₄, '-', m₁, m₂, '-', d₁, d₂] =>
    match digitListVal [y₁, y₂, y₃, y₄], digitListVal [m₁, m₂], digitListVal [d₁, d₂] with
    | some y, some m, some d =>
      if 1 ≤ m ∧ m ≤ 12 ∧ 1 ≤ d ∧ d ≤ daysInMonth (y : Int) m then some l else none
    | _, _, _ => none
  | _ => none

/-- String branch of `parseDate` (trim, DMY regex, generic parse, today fallback). -/
def parseDateStr (s : String) (today : String) : String :=
  let t := jsTrim s.toList
  match dmyMatch t with
  | some (d, m, y) => ⟨y ++ '-' :: (pad2 m ++ '-' :: pad2 d)⟩
  | none =>
    match isoParse t with
    | some l => ⟨l⟩
    | none => today

/-- Decimal rendering of a rational (used only when a serial number falls
    through to string handling; exact for integers, JS float formatting
    idealized for non-integers). -/
def ratToString (q : ℚ) : String :=
  let sgn : List Char := if q < 0 then ['-'] else []
  let n := |q|
  let ip := n.floor.toNat
  let frac := n - n.floor
  let fracDigits := ((frac * 10 ^ 17).floor.toNat)
  if frac = 0 then ⟨sgn ++ Nat.toDigits 10 ip⟩
  else ⟨sgn ++ Nat.toDigits 10 ip ++ '.' :: Nat.toDigits 10 fracDigits⟩

/-- JS falsiness of a raw cell (`!val`): empty string or the number 0. -/
def RawCell.isFalsy : RawCell → Bool
  | .str s => s == ""
  | .num q => q == 0

/-- JS `Math.round` (half rounds toward positive infinity). -/
def jsRound (q : ℚ) : Int := (q + 1 / 2).floor

/--
`parseDate` from the FileUpload component: falsy input yields today;
numeric input is an Excel serial (days since 1899-12-30) converted through
a JS `Date`; otherwise the trimmed string is matched against the DMY
regex, then generic date parsing, then today.
-/
def parseDate (val : RawCell) (today : String) : String :=
  if val.isFalsy then today
  else
    match val with
    | .num q =>
      let ms := jsRound ((q - 25569) * 86400 * 1000)
      if ms.natAbs ≤ 8640000000000000 then toISODatePart ms
      else parseDateStr (ratToString q) today
    | .str s => parseDateStr s today

/-! ### Field resolver (`findValue` in the FileUpload component) -/

/-- A keyed record produced by `sheet_to_json`: association list of
    column name to (string-rendered) cell value, keys distinct. -/
def Record := List (String × String)

/-- `row[key]` object lookup. -/
def getVal (row : Record) (k : String) : Option String :=
  (row.find? (fun p => p.1 == k)).map (fun p => p.2)

/-- `Object.keys(row)`. -/
def rowKeys (row : Record) : List String := row.map (fun p => p.1)

/-- A present, non-null, non-empty value (`v !== undefined && v !== null && v !== ""`). -/
def nonEmptyVal (v : Option String) : Option String :=
  match v with
  | some s => if s = "" then none else some s
  | none => none

/-- Pass 1 of `findValue`: case-sensitive exact key lookup, first candidate wins. -/
def passExact (row : Record) (keys : List String) : Option String :=
  keys.findSome? (fun key => nonEmptyVal (getVal row key))

/-- Pass 2 of `findValue`: the first row key whose trimmed, lower-cased text
    equals the trimmed, lower-cased candidate. -/
def passCI (row : Record) (keys : List String) : Option String :=
  keys.findSome? (fun key =>
    match (rowKeys row).find? (fun k => strLower (strTrim k) == strLower (strTrim key)) with
    | some fk => nonEmptyVal (getVal row fk)
    | none => none)

/-- Pass 3 of `findValue`: the first row key whose lower-cased text contains
    the lower-cased candidate as a substring. -/
def passPartial (row : Record) (keys : List String) : Option String :=
  keys.findSome? (fun key =>
    match (rowKeys row).find? (fun k => strContains (strLower k) (strLower key)) with
    | some fk => nonEmptyVal (getVal row fk)
    | none => none)

/-- `findValue` from the FileUpload component: three sequential passes with
    early return (exact, case-insensitive, substring). -/
def findValue (row : Record) (possibleKeys : List String) : Option String :=
  match passExact row possibleKeys with
  | some v => some v
  | none =>
    match passCI row possibleKeys with
    | some v => some v
    | none => passPartial row possibleKeys

/-! ### Header locator and row extraction (`processFile`) -/

/-- The fixed customer-column keyword set. -/
def customerKeywords : List String :=
  ["customer", "client", "party name", "bill to", "account name", "payer"]

/-- One cell triggers the header heuristic when it is truthy and its
    lower-cased text contains one of the keywords. -/
def cellHasKeyword (cell : String) : Bool :=
  if cell = "" then false
  else customerKeywords.any (fun k => strContains (strLower cell) k)

/-- A row is a header row when some cell matches a keyword. -/
def rowHasKeyword (row : List String) : Bool := row.any cellHasKeyword

/-- Scan loop of `processFile`: index-carrying search, bounded at row 50. -/
def findHeaderRowAux : Nat → List (List String) → Option Nat
  | _, [] => none
  | i, row :: rest =>
    if 50 ≤ i then none
    else if rowHasKeyword row then some i
    else findHeaderRowAux (i + 1) rest

/-- Header-row index search over the first `min(length, 50)` rows. -/
def findHeaderRow (rows : List (List String)) : Option Nat :=
  findHeaderRowAux 0 rows

/-- `sheet_to_json(sheet, range: h, defval: "")`: the row at index `h`
    names the fields, all later rows are data, missing cells default to
    the empty string. -/
def rowsToRecords (rows : List (List String)) (h : Nat) : List Record :=
  match rows.drop h with
  | [] => []
  | header :: dataRows =>
    dataRows.map (fun r =>
      (header.enum.map (fun p => (p.2, r.getD p.1 ""))))

/-- Ingestion failures surfaced by `processFile` before any transaction is
    built (`EmptyFile` is the early `File appears empty` check). -/
inductive ParseErr
  | EmptyFile
  | HeaderNotFound
  | EmptyData
deriving DecidableEq

/-- Header location plus record extraction stage of `processFile`: either
    the keyed data records, or a structured failure with no partial data. -/
def extractRecords (rows : List (List String)) : Except ParseErr (List Record) :=
  if rows.isEmpty then .error .EmptyFile
  else
    match findHeaderRow rows with
    | none => .error .HeaderNotFound
    | some h =>
      match rowsToRecords rows h with
      | [] => .error .EmptyData
      | recs => .ok recs

/-! ### Customer-name cleaning (`cleanCustomerName`) -/

/-- Maximal whitespace-separated words of a character list (accumulator
    holds the current word reversed). -/
def wordsAux : List Char → List Char → List (List Char)
  | [], cur => if cur = [] then [] else [cur.reverse]
  | c :: cs, cur =>
    if c.isWhitespace then
      if cur = [] then wordsAux cs [] else cur.reverse :: wordsAux cs []
    else wordsAux cs (c :: cur)

/-- The whitespace-separated words of a character list. -/
def wordsOf (l : List Char) : List (List Char) := wordsAux l []

/-- Join words with single spaces. -/
def joinSpace : List (List Char) → List Char
  | [] => []
  | [w] => w
  | w :: ws => w ++ ' ' :: joinSpace ws

/-- `cleanCustomerName`: falsy input gives the placeholder, otherwise all
    whitespace runs collapse to single spaces and the ends are trimmed
    (the composition of the two `replace` calls and `trim` in the source). -/
def cleanCustomerName (name : String) : String :=
  if name = "" then "Unknown"
  else ⟨joinSpace (wordsOf name.toList)⟩

/-! ### Canonical transactions and the transaction builder -/

/-- The ingestion- and render-time transaction type tags. -/
inductive TrxType
  | INV
  | Payment
  | INVOICE
  | PAYMENT
deriving DecidableEq, Repr

/-- The canonical `Transaction` entity (`types.ts`). -/
structure Transaction where
  id : String
  trxDate : String
  number : String
  region : String
  siteLocation : String
  trxType : TrxType
  originalAmount : JSNum
  customerName : String
  glAgency : Option String
  note : Option String
deriving DecidableEq

/-- Candidate synonym list for the customer-name column. -/
def custKeys : List String :=
  ["Customer Name", "Customer", "Client", "Account Name",
   "Party Name", "Bill To", "Payer", "Account Description",
   "Cust Name", "Customer #", "English Name", "Arabic Name"]

/-- Candidate synonym list for the amount column (`Total` first). -/
def amountKeys : List String :=
  ["Total", "Original", "Amount", "Value", "Debit", "Credit", "Balance", "Net"]

/-- Candidate synonym list for the type column. -/
def typeKeys : List String :=
  ["Trx Type", "Type", "Transaction Type", "Doc Type", "Category", "Description"]

/-- Candidate synonym list for the date column. -/
def dateKeys : List String :=
  ["Trx Date", "Date", "Transaction Date", "Invoice Date", "Gl Date"]

/-- The amount-sign pipeline of the builder: parse with commas stripped
    (NaN coerced to 0), negate positive amounts of payment-typed rows,
    then let parenthesis notation override the sign. -/
def processAmount (rawVal : Option String) (typeString : String) : JSNum :=
  let rawAmount := stripCommas (rawVal.getD "0")
  let a₀ := JSNum.ofOption (jsParseFloat rawAmount)
  let amount := if a₀ = .nan then JSNum.num 0 else a₀
  let amount :=
    if strContains (strLower typeString) "payment" && amount.gtZero
    then amount.neg else amount
  match rawVal with
  | some v =>
    if strContainsChar v '(' && strContainsChar v ')' then
      (JSNum.ofOption (jsParseFloat (stripParensCommas v))).neg
    else amount
  | none => amount

/-- One iteration of the `jsonData.forEach` body of `processFile`:
    `none` models the row being skipped. -/
def buildTransaction (today : String) (idx : Nat) (now : Nat) (row : Record) :
    Option Transaction :=
  match findValue row custKeys with
  | none => none
  | some custNameRaw =>
    if strTrim custNameRaw = "" then none
    else
      let customerName := cleanCustomerName custNameRaw
      if strContains (strLower customerName) "total" then none
      else
        let rawVal := findValue row amountKeys
        let typeString := (findValue row typeKeys).getD "INV"
        let amount := processAmount rawVal typeString
        let dateRaw := findValue row dateKeys
        let isoDate := parseDate (match dateRaw with
          | some s => .str s
          | none => .str "") today
        some
          { id := "file-" ++ toString idx ++ "-" ++ toString now
            trxDate := isoDate
            number := (findValue row ["Number", "Invoice No", "Ref", "Reference",
              "Doc Num", "Transaction Number", "Document Number"]).getD ""
            region := (findValue row ["Region", "Area", "Territory", "Zone"]).getD ""
            siteLocation := (findValue row ["Site Location", "Location", "Site",
              "Branch", "Store"]).getD ""
            trxType := if strContains (strLower typeString) "payment"
              then .Payment else .INV
            originalAmount := amount
            customerName := customerName
            glAgency := some ((findValue row ["Gl Agency", "Agency", "GL", "Account"]).getD "")
            note := some ((findValue row ["Note", "Description", "Memo", "Remarks",
              "Details", "Narration"]).getD "") }

/-- The whole builder loop: indexed rows, skips dropped. -/
def buildTransactions (today : String) (now : Nat) (recs : List Record) :
    List Transaction :=
  (recs.enum.filterMap (fun p => buildTransaction today p.1 now p.2))

/-! ### Manual payment entry (`handleSubmit` in ManualEntryForm) -/

/-- The editable fields of the manual-entry form. -/
structure ManualForm where
  trxDate : String
  number : String
  region : String
  siteLocation : String
  /-- The numeric reading of the amount input (`Number(formData.originalAmount)`);
      the browser restricts a `type="number"` input to numeric strings. -/
  originalAmount : ℚ

/-- `handleSubmit`: `none` models the early return when no customer is
    selected; otherwise the stored transaction, with the amount forced to
    the negated absolute value of the entered amount. -/
def buildManualTransaction (form : ManualForm) (selectedCustomer : String)
    (today : String) (now : Nat) : Option Transaction :=
  if selectedCustomer = "" then none
  else
    let amount := form.originalAmount
    let finalAmount : JSNum := .num (-|amount|)
    some
      { id := "manual-" ++ toString now
        trxDate := if form.trxDate = "" then today else form.trxDate
        number := form.number
        region := form.region
        siteLocation := form.siteLocation
        trxType := .PAYMENT
        originalAmount := finalAmount
        customerName := selectedCustomer
        glAgency := none
        note := none }

/-! ### Ledger merge and balance engine (`generateStatementPDF`) -/

/-- `StatementConfig` (`types.ts`). -/
structure StatementConfig where
  operatingUnit : String
  startDate : String
  endDate : String
  openingBalance : ℚ
  logoUrl : Option String

/-- A merged ledger entry: a transaction copy plus its rendering amount
    (the `calculatedAmount` added by the spread in the merge stage). -/
structure CalcTrx where
  id : String
  trxDate : String
  number : String
  region : String
  siteLocation : String
  trxType : TrxType
  originalAmount : JSNum
  customerName : String
  glAgency : Option String
  note : Option String
  calculatedAmount : JSNum
deriving DecidableEq

/-- The customer/date-window filter shared by both branches of the merge. -/
def selectTrxs (l : List Transaction) (c : String) (cfg : StatementConfig) :
    List Transaction :=
  l.filter (fun t =>
    t.customerName == c && strLe cfg.startDate t.trxDate
      && strLe t.trxDate cfg.endDate)

/-- Invoice retagging of a file transaction, with the location override
    from the reference manual transaction when one exists. -/
def invRetag (refTrx : Option Transaction) (t : Transaction) : CalcTrx :=
  { id := t.id
    trxDate := t.trxDate
    number := t.number
    region := match refTrx with | some r => r.region | none => t.region
    siteLocation := match refTrx with | some r => r.siteLocation | none => t.siteLocation
    trxType := .INVOICE
    originalAmount := t.originalAmount
    customerName := t.customerName
    glAgency := t.glAgency
    note := t.note
    calculatedAmount := t.originalAmount.abs }

/-- Payment retagging of a manual transaction. -/
def payRetag (t : Transaction) : CalcTrx :=
  { id := t.id
    trxDate := t.trxDate
    number := t.number
    region := t.region
    siteLocation := t.siteLocation
    trxType := .PAYMENT
    originalAmount := t.originalAmount
    customerName := t.customerName
    glAgency := t.glAgency
    note := t.note
    calculatedAmount := t.originalAmount.abs.neg }

/-- Date order used by the merge sort (on canonical `YYYY-MM-DD` strings
    the lexicographic order coincides with chronological order, which is
    what the `new Date(...).getTime()` comparator computes). -/
def dateLe (a b : CalcTrx) : Prop := strLe a.trxDate b.trxDate = true

instance : DecidableRel dateLe := fun a b =>
  inferInstanceAs (Decidable (strLe a.trxDate b.trxDate = true))

theorem lexLe_total : ∀ a b : List Char, lexLe a b = true ∨ lexLe b a = true := by
  intro a
  induction a with
  | nil => intro b; left; rfl
  | cons x xs ih =>
    intro b
    cases b with
    | nil => right; rfl
    | cons y ys =>
      rcases lt_trichotomy x y with h | h | h
      · left; simp [lexLe, h]
      · subst h
        rcases ih ys with h' | h'
        · left; simp [lexLe, h']
        · right; simp [lexLe, h']
      · right; simp [lexLe, h]

theorem lexLe_trans :
    ∀ a b c : List Char, lexLe a b = true → lexLe b c = true → lexLe a c = true := by
  intro a
  induction a with
  | nil => intro b c _ _; rfl
  | cons x xs ih =>
    intro b c h₁ h₂
    cases b with
    | nil => simp [lexLe] at h₁
    | cons y ys =>
      cases c with
      | nil => simp [lexLe] at h₂
      | cons z zs =>
        simp only [lexLe] at h₁ h₂ ⊢
        by_cases hxy : x < y
        · by_cases hyz : y < z
          · simp [lt_trans hxy hyz]
          · by_cases hyz2 : y = z
            · subst hyz2; simp [hxy]
            · simp [hyz, hyz2] at h₂
        · by_cases hxy2 : x = y
          · subst hxy2
            by_cases hxz : x < z
            · simp [hxz]
            · by_cases hxz2 : x = z
              · subst hxz2
                simp [lt_irrefl] at h₁ h₂ ⊢
                exact ih ys zs h₁ h₂
              · simp [hxz, hxz2] at h₂
          · simp [hxy, hxy2] at h₁

instance : IsTotal CalcTrx dateLe :=
  ⟨fun a b => lexLe_total a.trxDate.toList b.trxDate.toList⟩

instance : IsTrans CalcTrx dateLe :=
  ⟨fun _ _ _ h h' => lexLe_trans _ _ _ h h'⟩

/-- The filter-retag-concatenate-sort stage of `generateStatementPDF`. -/
def mergeTrxs (fileTransactions manualTransactions : List Transaction)
    (selectedCustomer : String) (config : StatementConfig) : List CalcTrx :=
  let customerManualTrxs :=
    manualTransactions.filter (fun t => t.customerName == selectedCustomer)
  let refTrx := customerManualTrxs.head?
  let invoiceTrxs :=
    (selectTrxs fileTransactions selectedCustomer config).map (invRetag refTrx)
  let paymentTrxs :=
    (selectTrxs manualTransactions selectedCustomer config).map payRetag
  (invoiceTrxs ++ paymentTrxs).insertionSort dateLe

/-- The per-row displayed balances: the running balance after each entry
    (the value captured into each table row by the `map` over `allTrxs`). -/
def runBalances (bal : JSNum) : List CalcTrx → List JSNum
  | [] => []
  | t :: ts =>
    let b := bal + t.calculatedAmount
    b :: runBalances b ts

/-- The closing figure: the running-balance accumulator after the walk
    (rendered as the Total Balance Due). -/
def finalBalance (bal : JSNum) (l : List CalcTrx) : JSNum :=
  l.foldl (fun acc t => acc + t.calculatedAmount) bal

/-! ### Concrete scenario data (end-to-end scenario 1) -/

/-- The file-sourced invoice of scenario 1: 500.00 on 2024-01-05. -/
def acmeInvoice : Transaction :=
  { id := "file-0-0", trxDate := "2024-01-05", number := "1001",
    region := "Center", siteLocation := "Riyadh", trxType := .INV,
    originalAmount := .num 500, customerName := "ACME",
    glAgency := some "", note := some "" }

/-- A second file-sourced invoice (300.00 on 2024-01-07), used for the
    permutation-invariance witness. -/
def acmeInvoiceB : Transaction :=
  { id := "file-1-0", trxDate := "2024-01-07", number := "1002",
    region := "Center", siteLocation := "Riyadh", trxType := .INV,
    originalAmount := .num 300, customerName := "ACME",
    glAgency := some "", note := some "" }

/-- The manual payment of scenario 1: 200.00 on 2024-01-10, stored
    negative by the manual-entry form. -/
def acmePayment : Transaction :=
  { id := "manual-1", trxDate := "2024-01-10", number := "2002",
    region := "Center", siteLocation := "Riyadh", trxType := .PAYMENT,
    originalAmount := .num (-200), customerName := "ACME",
    glAgency := none, note := none }

/-- A January 2024 statement window with opening balance 1000.00. -/
def janCfg : StatementConfig :=
  { operatingUnit := "FMCG", startDate := "2024-01-01",
    endDate := "2024-01-31", openingBalance := 1000, logoUrl := none }

/-! ### Running-balance lemmas -/

theorem finalBalance_eq_add_sum (l : List CalcTrx) :
    ∀ b : JSNum, finalBalance b l = b + (l.map (fun t => t.calculatedAmount)).sum := by
  induction l with
  | nil => intro b; simp [finalBalance]
  | cons t ts ih =>
    intro b
    show finalBalance (b + t.calculatedAmount) ts = _
    rw [ih]
    simp [add_assoc]

theorem runBalances_getD (l : List CalcTrx) :
    ∀ (b : JSNum) (n : Nat), n < l.length →
      (runBalances b l).getD n 0 =
        b + ((l.take (n + 1)).map (fun t => t.calculatedAmount)).sum := by
  induction l with
  | nil => intro b n h; simp at h
  | cons t ts ih =>
    intro b n h
    cases n with
    | zero => simp [runBalances]
    | succ n =>
      have hn : n < ts.length := by simpa using h
      show (runBalances (b + t.calculatedAmount) ts).getD n 0 = _
      rw [ih _ n hn]
      simp [add_assoc]

theorem runBalances_getLastD (l : List CalcTrx) :
    ∀ b : JSNum, (runBalances b l).getLastD b = finalBalance b l := by
  induction l with
  | nil => intro b; simp [runBalances, finalBalance]
  | cons t ts ih =>
    intro b
    show ((b + t.calculatedAmount) :: runBalances (b + t.calculatedAmount) ts).getLastD b = _
    rw [List.getLastD_cons, ih]
    rfl

set_option maxRecDepth 8000 in
/--
C1. For every merged ledger sequence and opening balance, the displayed
balance of the n-th row equals the opening balance plus the sum of the
rendering amounts of rows 1 through n, and the closing Total Balance Due
figure equals the balance after the last row; in the concrete scenario
(opening 1000.00, one 500.00 invoice on 2024-01-05, one 200.00 manual
payment on 2024-01-10) the rows show balances 1500.00 and 1300.00 and the
final balance is 1300.00.
-/
theorem running_balance_is_prefix_sums :
    (∀ (b : JSNum) (l : List CalcTrx) (n : Nat), n < l.length →
        (runBalances b l).getD n 0 =
          b + ((l.take (n + 1)).map (fun t => t.calculatedAmount)).sum) ∧
    (∀ (b : JSNum) (l : List CalcTrx), (runBalances b l).getLastD b = finalBalance b l) ∧
    runBalances (.num janCfg.openingBalance)
        (mergeTrxs [acmeInvoice] [acmePayment] "ACME" janCfg) =
      [.num 1500, .num 1300] ∧
    finalBalance (.num janCfg.openingBalance)
        (mergeTrxs [acmeInvoice] [acmePayment] "ACME" janCfg) = .num 1300 := by
  refine ⟨fun b l n h => runBalances_getD l b n h,
    fun b l => runBalances_getLastD l b, ?_, ?_⟩ <;> with_unfolding_all decide

set_option maxRecDepth 8000 in
/-- Witness for C1 at a concrete one-row ledger. -/
theorem running_balance_is_prefix_sums_witness :
    0 < (mergeTrxs [acmeInvoice] [] "ACME" janCfg).length ∧
    (runBalances (.num 1000) (mergeTrxs [acmeInvoice] [] "ACME" janCfg)).getD 0 0 =
      .num 1000 + (((mergeTrxs [acmeInvoice] [] "ACME" janCfg).take 1).map
        (fun t => t.calculatedAmount)).sum :=
  ⟨by decide,
    running_balance_is_prefix_sums.1 (.num 1000)
      (mergeTrxs [acmeInvoice] [] "ACME" janCfg) 0 (by decide)⟩

/--
C10. Every transaction created through the manual-entry form is stored
with type PAYMENT and with amount the negation of the absolute value of
the entered amount, hence never positive, whatever sign the user typed.
-/
theorem manual_entry_stores_nonpositive_payment :
    ∀ (form : ManualForm) (c today : String) (now : Nat) (t : Transaction),
      buildManualTransaction form c today now = some t →
      t.trxType = .PAYMENT ∧ t.originalAmount = .num (-|form.originalAmount|) ∧
        t.originalAmount.gtZero = false := by
  intro form c today now t h
  unfold buildManualTransaction at h
  split at h
  · exact absurd h (by simp)
  · cases h
    refine ⟨rfl, rfl, ?_⟩
    simp [JSNum.gtZero]

set_option maxRecDepth 8000 in
/-- Witness for C10: a manual entry of +200 is stored as -200. -/
theorem manual_entry_stores_nonpositive_payment_witness :
    buildManualTransaction
        { trxDate := "2024-01-10", number := "2002", region := "Center",
          siteLocation := "Riyadh", originalAmount := 200 } "ACME" "2024-01-10" 1 =
      some acmePayment ∧
    acmePayment.trxType = .PAYMENT ∧
      acmePayment.originalAmount = .num (-|(200 : ℚ)|) ∧
      acmePayment.originalAmount.gtZero = false :=
  ⟨by with_unfolding_all decide,
    manual_entry_stores_nonpositive_payment
      { trxDate := "2024-01-10", number := "2002", region := "Center",
        siteLocation := "Riyadh", originalAmount := 200 } "ACME" "2024-01-10" 1
      acmePayment (by with_unfolding_all decide)⟩

/-! ### List and character helper lemmas for the date normalizer -/

theorem digit_not_ws (c : Char) (h : c.isDigit = true) : c.isWhitespace = false := by
  cases hw : c.isWhitespace
  · rfl
  · exfalso
    have hc : c = ' ' ∨ c = '\t' ∨ c = '\r' ∨ c = '\n' := by
      simpa [Char.isWhitespace, or_assoc] using hw
    rcases hc with rfl | rfl | rfl | rfl <;> exact absurd h (by decide)

theorem takeWhile_append_not (p : Char → Bool) (l₂ : List Char) (c : Char)
    (hc : p c = false) :
    ∀ l₁ : List Char, (∀ x ∈ l₁, p x = true) →
      (l₁ ++ c :: l₂).takeWhile p = l₁ := by
  intro l₁
  induction l₁ with
  | nil => intro _; simp [List.takeWhile, hc]
  | cons a t ih =>
    intro h
    have ha := h a (by simp)
    simp only [List.cons_append, List.takeWhile, ha]
    exact congrArg (List.cons a) (ih (fun x hx => h x (by simp [hx])))

theorem dropWhile_append_not (p : Char → Bool) (l₂ : List Char) (c : Char)
    (hc : p c = false) :
    ∀ l₁ : List Char, (∀ x ∈ l₁, p x = true) →
      (l₁ ++ c :: l₂).dropWhile p = c :: l₂ := by
  intro l₁
  induction l₁ with
  | nil => intro _; simp [List.dropWhile, hc]
  | cons a t ih =>
    intro h
    have ha := h a (by simp)
    simp only [List.cons_append, List.dropWhile, ha]
    exact ih (fun x hx => h x (by simp [hx]))

theorem dropWhile_eq_self_not (p : Char → Bool) :
    ∀ l : List Char, (∀ x ∈ l, p x = false) → l.dropWhile p = l := by
  intro l h
  cases l with
  | nil => rfl
  | cons a t => simp [List.dropWhile, h a (by simp)]

theorem jsTrim_eq_self (l : List Char) (h : ∀ x ∈ l, x.isWhitespace = false) :
    jsTrim l = l := by
  unfold jsTrim
  rw [dropWhile_eq_self_not _ l h,
    dropWhile_eq_self_not _ l.reverse (fun x hx => h x (List.mem_reverse.mp hx)),
    List.reverse_reverse]

/-- Evaluation of the date normalizer on any string that matches the
    day-month-year pattern: the pieces are reassembled positionally. -/
theorem parseDate_dmy (d m y : List Char) (s₁ s₂ : Char) (today : String)
    (hd1 : 1 ≤ d.length) (hd2 : d.length ≤ 2) (hdd : ∀ c ∈ d, c.isDigit = true)
    (hm1 : 1 ≤ m.length) (hm2 : m.length ≤ 2) (hmd : ∀ c ∈ m, c.isDigit = true)
    (hy : y.length = 4) (hyd : ∀ c ∈ y, c.isDigit = true)
    (hs₁ : s₁ = '/' ∨ s₁ = '-') (hs₂ : s₂ = '/' ∨ s₂ = '-') :
    parseDate (.str ⟨d ++ s₁ :: (m ++ s₂ :: y)⟩) today =
      ⟨y ++ '-' :: (pad2 m ++ '-' :: pad2 d)⟩ := by
  have hs₁d : s₁.isDigit = false := by rcases hs₁ with h | h <;> subst h <;> decide
  have hs₂d : s₂.isDigit = false := by rcases hs₂ with h | h <;> subst h <;> decide
  have hs₁w : s₁.isWhitespace = false := by rcases hs₁ with h | h <;> subst h <;> decide
  have hs₂w : s₂.isWhitespace = false := by rcases hs₂ with h | h <;> subst h <;> decide
  have hne : d ++ s₁ :: (m ++ s₂ :: y) ≠ [] := by
    cases d with
    | nil => simp at hd1
    | cons a t => simp
  have hfalsy : (RawCell.str ⟨d ++ s₁ :: (m ++ s₂ :: y)⟩).isFalsy = false := by
    simp only [RawCell.isFalsy, beq_eq_false_iff_ne, ne_eq]
    intro hcontra
    exact hne (congrArg String.data hcontra)
  have hws : ∀ x ∈ d ++ s₁ :: (m ++ s₂ :: y), x.isWhitespace = false := by
    intro x hx
    simp only [List.mem_append, List.mem_cons] at hx
    rcases hx with hx | hx | hx | hx | hx
    · exact digit_not_ws x (hdd x hx)
    · subst hx; exact hs₁w
    · exact digit_not_ws x (hmd x hx)
    · subst hx; exact hs₂w
    · exact digit_not_ws x (hyd x hx)
  have htw₁ : (d ++ s₁ :: (m ++ s₂ :: y)).takeWhile Char.isDigit = d :=
    takeWhile_append_not _ _ _ hs₁d d hdd
  have hdw₁ : (d ++ s₁ :: (m ++ s₂ :: y)).dropWhile Char.isDigit = s₁ :: (m ++ s₂ :: y) :=
    dropWhile_append_not _ _ _ hs₁d d hdd
  have htw₂ : (m ++ s₂ :: y).takeWhile Char.isDigit = m :=
    takeWhile_append_not _ _ _ hs₂d m hmd
  have hdw₂ : (m ++ s₂ :: y).dropWhile Char.isDigit = s₂ :: y :=
    dropWhile_append_not _ _ _ hs₂d m hmd
  have hy4 : y.take 4 = y := List.take_of_length_le (le_of_eq hy)
  have hmatch : dmyMatch (d ++ s₁ :: (m ++ s₂ :: y)) = some (d, m, y) := by
    simp only [dmyMatch, htw₁, hdw₁, htw₂, hdw₂, hy4]
    simp [hd1, hd2, hm1, hm2, hs₁, hs₂, hy, List.all_eq_true]
    exact hyd
  have hstr : parseDateStr ⟨d ++ s₁ :: (m ++ s₂ :: y)⟩ today =
      ⟨y ++ '-' :: (pad2 m ++ '-' :: pad2 d)⟩ := by
    simp only [parseDateStr, String.toList, jsTrim_eq_self _ hws, hmatch]
  unfold parseDate
  rw [hfalsy]
  exact hstr

/--
C4. For every raw date string of the form one-or-two digits, separator
`/` or `-`, one-or-two digits, separator, four digits, the normalizer
assigns the first position as the day and the second as the month
verbatim (day-month-year convention, never swapped), whatever other
conventions would make of the string.
-/
theorem date_dmy_never_swapped :
    ∀ (d m y : List Char) (s₁ s₂ : Char) (today : String),
      1 ≤ d.length → d.length ≤ 2 → (∀ c ∈ d, c.isDigit = true) →
      1 ≤ m.length → m.length ≤ 2 → (∀ c ∈ m, c.isDigit = true) →
      y.length = 4 → (∀ c ∈ y, c.isDigit = true) →
      (s₁ = '/' ∨ s₁ = '-') → (s₂ = '/' ∨ s₂ = '-') →
      parseDate (.str ⟨d ++ s₁ :: (m ++ s₂ :: y)⟩) today =
        ⟨y ++ '-' :: (pad2 m ++ '-' :: pad2 d)⟩ :=
  fun d m y s₁ s₂ today hd1 hd2 hdd hm1 hm2 hmd hy hyd hs₁ hs₂ =>
    parseDate_dmy d m y s₁ s₂ today hd1 hd2 hdd hm1 hm2 hmd hy hyd hs₁ hs₂

/-- Witness for C4: `05/01/2024` normalizes to `2024-01-05` (5 January,
    not 1 May). -/
theorem date_dmy_never_swapped_witness :
    parseDate (.str "05/01/2024") "1999-12-31" = "2024-01-05" := by
  have h := date_dmy_never_swapped ['0', '5'] ['0', '1'] ['2', '0', '2', '4'] '/' '/'
    "1999-12-31" (by decide) (by decide) (by decide) (by decide) (by decide)
    (by decide) (by decide) (by decide) (Or.inl rfl) (Or.inl rfl)
  exact h

/-- A string of the canonical ten-character `YYYY-MM-DD` shape. -/
def isDateShaped (s : String) : Bool :=
  match s.toList with
  | [a, b, c, d, '-', e, f, '-', g, h] => [a, b, c, d, e, f, g, h].all Char.isDigit
  | _ => false

/-- A string denoting a valid calendar date in canonical `YYYY-MM-DD`
    form (shape plus month and day-of-month range checks). -/
def isValidISODate (s : String) : Bool := (isoParse s.toList).isSome

theorem isDateShaped_of_parts (y p q : List Char)
    (hy : y.length = 4) (hyd : ∀ c ∈ y, c.isDigit = true)
    (hp : p.length = 2) (hpd : ∀ c ∈ p, c.isDigit = true)
    (hq : q.length = 2) (hqd : ∀ c ∈ q, c.isDigit = true) :
    isDateShaped ⟨y ++ '-' :: (p ++ '-' :: q)⟩ = true := by
  obtain ⟨a, y', rfl⟩ : ∃ a y', y = a :: y' := by
    cases y with
    | nil => simp at hy
    | cons a t => exact ⟨a, t, rfl⟩
  have hy' : y'.length = 3 := by simpa using hy
  obtain ⟨b, c, d, rfl⟩ := List.length_eq_three.mp hy'
  obtain ⟨e, f, rfl⟩ := List.length_eq_two.mp hp
  obtain ⟨g, h, rfl⟩ := List.length_eq_two.mp hq
  simp only [isDateShaped, List.cons_append, List.nil_append]
  simp only [String.toList]
  simp [List.all_eq_true]
  exact ⟨hyd a (by simp), hyd b (by simp), hyd c (by simp), hyd d (by simp),
    hpd e (by simp), hpd f (by simp), hqd g (by simp), hqd h (by simp)⟩

theorem pad2_length (l : List Char) (h1 : 1 ≤ l.length) (h2 : l.length ≤ 2) :
    (pad2 l).length = 2 := by
  unfold pad2
  split
  · simpa
  · omega

theorem pad2_digits (l : List Char) (hd : ∀ c ∈ l, c.isDigit = true) :
    ∀ c ∈ pad2 l, c.isDigit = true := by
  unfold pad2
  split
  · intro c hc
    rcases List.mem_cons.mp hc with rfl | hc
    · decide
    · exact hd c hc
  · exact hd

/-- C5 counterexample: the in-range claim fails — `31/02/2024` is
    normalized to `2024-02-31`, which is not a valid calendar date
    (February 2024 has 29 days). -/
theorem date_normalizer_validity_counterexample :
    parseDate (.str "31/02/2024") "2024-06-15" = "2024-02-31" ∧
      isValidISODate "2024-02-31" = false := by
  constructor
  · have h := parseDate_dmy ['3', '1'] ['0', '2'] ['2', '0', '2', '4'] '/' '/'
      "2024-06-15" (by decide) (by decide) (by decide) (by decide) (by decide)
      (by decide) (by decide) (by decide) (Or.inl rfl) (Or.inl rfl)
    exact h
  · decide

/--
C5 (amended). The date normalizer is total and returns the current date
for inputs no branch can parse, but for day-month-year-pattern inputs it
reassembles the pieces positionally with no range validation: the result
always has the `YYYY-MM-DD` shape, yet need not denote a valid calendar
date.
-/
theorem date_normalizer_shape_and_fallback :
    (∀ (d m y : List Char) (s₁ s₂ : Char) (today : String),
        1 ≤ d.length → d.length ≤ 2 → (∀ c ∈ d, c.isDigit = true) →
        1 ≤ m.length → m.length ≤ 2 → (∀ c ∈ m, c.isDigit = true) →
        y.length = 4 → (∀ c ∈ y, c.isDigit = true) →
        (s₁ = '/' ∨ s₁ = '-') → (s₂ = '/' ∨ s₂ = '-') →
        isDateShaped (parseDate (.str ⟨d ++ s₁ :: (m ++ s₂ :: y)⟩) today) = true) ∧
    (∀ (s : String) (today : String), s ≠ "" →
        dmyMatch (jsTrim s.toList) = none → isoParse (jsTrim s.toList) = none →
        parseDate (.str s) today = today) := by
  constructor
  · intro d m y s₁ s₂ today hd1 hd2 hdd hm1 hm2 hmd hy hyd hs₁ hs₂
    rw [parseDate_dmy d m y s₁ s₂ today hd1 hd2 hdd hm1 hm2 hmd hy hyd hs₁ hs₂]
    exact isDateShaped_of_parts y (pad2 m) (pad2 d) hy hyd
      (pad2_length m hm1 hm2) (pad2_digits m hmd)
      (pad2_length d hd1 hd2) (pad2_digits d hdd)
  · intro s today hne hdmy hiso
    unfold parseDate
    have hfalsy : (RawCell.str s).isFalsy = false := by
      simpa [RawCell.isFalsy] using hne
    rw [hfalsy]
    simp only [Bool.false_eq_true, if_false]
    simp only [parseDateStr, hdmy, hiso]

/-- Witness for C5 (amended): the out-of-range result still has the
    canonical shape, and an unparseable string falls back to today. -/
theorem date_normalizer_shape_and_fallback_witness :
    isDateShaped (parseDate (.str "31/02/2024") "2024-06-15") = true ∧
      parseDate (.str "hello world") "2024-06-15" = "2024-06-15" :=
  ⟨date_normalizer_shape_and_fallback.1 ['3', '1'] ['0', '2'] ['2', '0', '2', '4']
      '/' '/' "2024-06-15" (by decide) (by decide) (by decide) (by decide)
      (by decide) (by decide) (by decide) (by decide) (Or.inl rfl) (Or.inl rfl),
    date_normalizer_shape_and_fallback.2 "hello world" "2024-06-15"
      (by decide) (by decide) (by decide)⟩

/-! ### The transaction builder seen as an explicit record -/

/-- Any successfully built transaction is the explicit record assembled
    by the builder, with the customer-name guards known to have passed. -/
theorem buildTransaction_some_eq (today : String) (idx now : Nat) (row : Record)
    (t : Transaction) (h : buildTransaction today idx now row = some t) :
    ∃ raw, findValue row custKeys = some raw ∧ ¬ strTrim raw = "" ∧
      strContains (strLower (cleanCustomerName raw)) "total" = false ∧
      t = { id := "file-" ++ toString idx ++ "-" ++ toString now
            trxDate := parseDate (match findValue row dateKeys with
              | some s => .str s
              | none => .str "") today
            number := (findValue row ["Number", "Invoice No", "Ref", "Reference",
              "Doc Num", "Transaction Number", "Document Number"]).getD ""
            region := (findValue row ["Region", "Area", "Territory", "Zone"]).getD ""
            siteLocation := (findValue row ["Site Location", "Location", "Site",
              "Branch", "Store"]).getD ""
            trxType := if strContains (strLower ((findValue row typeKeys).getD "INV"))
                "payment" then .Payment else .INV
            originalAmount := processAmount (findValue row amountKeys)
              ((findValue row typeKeys).getD "INV")
            customerName := cleanCustomerName raw
            glAgency := some ((findValue row ["Gl Agency", "Agency", "GL",
              "Account"]).getD "")
            note := some ((findValue row ["Note", "Description", "Memo", "Remarks",
              "Details", "Narration"]).getD "") } := by
  revert h
  unfold buildTransaction
  cases hc : findValue row custKeys with
  | none => intro h; exact absurd h (by simp)
  | some raw =>
    show (if strTrim raw = "" then none else _) = some t → _
    by_cases h1 : strTrim raw = ""
    · rw [if_pos h1]; intro h; exact absurd h (by simp)
    · rw [if_neg h1]
      by_cases h2 : strContains (strLower (cleanCustomerName raw)) "total" = true
      · rw [if_pos h2]; intro h; exact absurd h (by simp)
      · rw [if_neg h2]
        intro h
        exact ⟨raw, rfl, h1, by simpa using h2, (Option.some.inj h).symm⟩

/-! ### C3: parenthesis notation and the stored sign -/

/-- A data row whose amount cell is a parenthesised zero. -/
def parenZeroRow : Record :=
  [("Customer Name", "ACME"), ("Total", "(0.00)"), ("Trx Date", "01/02/2024")]

/-- C3 counterexample: the parenthesised amount `"(0.00)"` is stored as
    `0`, which is not negative, so parenthesis notation does not always
    produce a negative stored amount. -/
theorem paren_notation_counterexample :
    (buildTransaction "2024-06-01" 0 0 parenZeroRow).map Transaction.originalAmount =
        some (JSNum.num 0) ∧
      (JSNum.num 0).ltZero = false := by
  constructor
  · decide
  · decide

/-- The amount pipeline on a parenthesised cell with positive content. -/
theorem processAmount_paren (rawVal typeString : String) (q : ℚ)
    (h₁ : strContainsChar rawVal '(' = true) (h₂ : strContainsChar rawVal ')' = true)
    (hq : jsParseFloat (stripParensCommas rawVal) = some q) :
    processAmount (some rawVal) typeString = .num (-q) := by
  unfold processAmount
  simp only [h₁, h₂, Bool.and_self, if_true, hq]
  rfl

/--
C3 (amended). For every raw amount cell in parenthesis notation whose
parenthesised numeric content is positive, the stored originalAmount is
the negation of that content, hence negative, and this overrides the
type-based sign rule (whatever the type text says); a parenthesised zero
is stored as zero. In particular `"(1,250.50)"` is stored as `-1250.50`.
-/
theorem paren_notation_overrides_sign :
    (∀ (rawVal typeString : String) (q : ℚ),
        strContainsChar rawVal '(' = true → strContainsChar rawVal ')' = true →
        jsParseFloat (stripParensCommas rawVal) = some q → 0 < q →
        processAmount (some rawVal) typeString = .num (-q) ∧
          (JSNum.num (-q)).ltZero = true) ∧
    (∀ (today : String) (idx now : Nat) (row : Record) (t : Transaction)
        (rv : String) (q : ℚ),
        buildTransaction today idx now row = some t →
        findValue row amountKeys = some rv →
        strContainsChar rv '(' = true → strContainsChar rv ')' = true →
        jsParseFloat (stripParensCommas rv) = some q → 0 < q →
        t.originalAmount = .num (-q)) := by
  constructor
  · intro rawVal typeString q h₁ h₂ hq hpos
    refine ⟨processAmount_paren rawVal typeString q h₁ h₂ hq, ?_⟩
    simp [JSNum.ltZero]
    exact hpos
  · intro today idx now row t rv q h hrv h₁ h₂ hq _
    obtain ⟨raw, _, _, _, rfl⟩ := buildTransaction_some_eq today idx now row t h
    show processAmount (findValue row amountKeys) _ = _
    rw [hrv]
    exact processAmount_paren rv _ q h₁ h₂ hq

/-- Witness for C3 (amended): `"(1,250.50)"` is stored as `-1250.50`,
    even with a payment-typed row. -/
theorem paren_notation_overrides_sign_witness :
    processAmount (some "(1,250.50)") "Payment" = .num (-(Rat.divInt 2501 2)) ∧
      (JSNum.num (-(Rat.divInt 2501 2))).ltZero = true :=
  paren_notation_overrides_sign.1 "(1,250.50)" "Payment" (Rat.divInt 2501 2)
    (by decide) (by decide) (by decide) (by decide)

/-! ### C6: the three-pass field resolver -/

/-- Pass 2 exactly as the claim words it: a case-insensitive exact key
    match with no trimming (the source additionally trims both sides). -/
def passCIClaimed (row : Record) (keys : List String) : Option String :=
  keys.findSome? (fun key =>
    match (rowKeys row).find? (fun k => strLower k == strLower key) with
    | some fk => nonEmptyVal (getVal row fk)
    | none => none)

/-- The resolver as described by the claim (untrimmed second pass). -/
def findValueClaimed (row : Record) (keys : List String) : Option String :=
  match passExact row keys with
  | some v => some v
  | none =>
    match passCIClaimed row keys with
    | some v => some v
    | none => passPartial row keys

/-- C6 counterexample: on a record with a key carrying trailing
    whitespace, the source resolver (which trims in pass 2) and the
    claimed resolver (plain case-insensitive exact match in pass 2)
    return different values. -/
theorem field_resolution_counterexample :
    findValue [("B ", "y"), ("XA", "x")] ["A", "B"] = some "y" ∧
      findValueClaimed [("B ", "y"), ("XA", "x")] ["A", "B"] = some "x" := by
  constructor <;> decide

/-- The three match tiers of the amended claim. -/
inductive Tier
  | exact
  | ci
  | substr

/-- What one tier returns for one candidate: exact lookup, trimmed
    case-insensitive key match, or case-insensitive substring match
    (record key containing the candidate), keeping only non-empty values. -/
def tierMatch : Tier → Record → String → Option String
  | .exact, row, key => nonEmptyVal (getVal row key)
  | .ci, row, key =>
    match (rowKeys row).find? (fun k => strLower (strTrim k) == strLower (strTrim key)) with
    | some fk => nonEmptyVal (getVal row fk)
    | none => none
  | .substr, row, key =>
    match (rowKeys row).find? (fun k => strContains (strLower k) (strLower key)) with
    | some fk => nonEmptyVal (getVal row fk)
    | none => none

/-- The amended claim's resolver: for each tier in order (exact, trimmed
    case-insensitive, substring), scan the entire candidate list before
    moving to the next tier; first hit wins. -/
def findValueAmendedSpec (row : Record) (keys : List String) : Option String :=
  [Tier.exact, Tier.ci, Tier.substr].findSome?
    (fun tier => keys.findSome? (fun key => tierMatch tier row key))

/--
C6 (amended). Field resolution runs three passes — case-sensitive exact
key match, then case-insensitive exact key match after trimming
surrounding whitespace from both the record key and the candidate, then
case-insensitive substring match (record key containing the candidate) —
each pass scanning the entire candidate list in order before the next
pass begins and returning the first non-empty hit; consequently, for
candidates [Total, Amount] against a record with both a Net Amount key
and a Total key, the resolver returns the Total value.
-/
theorem field_resolution_three_pass :
    (∀ (row : Record) (keys : List String),
        findValue row keys = findValueAmendedSpec row keys) ∧
    findValue [("Net Amount", "999"), ("Total", "500")] ["Total", "Amount"] =
      some "500" := by
  constructor
  · intro row keys
    have e1 : (keys.findSome? fun key => tierMatch .exact row key) = passExact row keys := rfl
    have e2 : (keys.findSome? fun key => tierMatch .ci row key) = passCI row keys := rfl
    have e3 : (keys.findSome? fun key => tierMatch .substr row key) = passPartial row keys := rfl
    simp only [findValueAmendedSpec, List.findSome?_cons, List.findSome?_nil, e1, e2, e3]
    unfold findValue
    cases passExact row keys
    · cases passCI row keys
      · cases passPartial row keys <;> rfl
      · rfl
    · rfl
  · decide

/-! ### C7: the header locator -/

theorem findHeaderRowAux_some (l : List (List String)) :
    ∀ i j, findHeaderRowAux i l = some j →
      i ≤ j ∧ j < 50 ∧
      (∃ row, l.get? (j - i) = some row ∧ rowHasKeyword row = true) ∧
      (∀ k, k < j - i → ∀ row, l.get? k = some row → rowHasKeyword row = false) := by
  induction l with
  | nil => intro i j h; exact absurd h (by simp [findHeaderRowAux])
  | cons r rest ih =>
    intro i j h
    unfold findHeaderRowAux at h
    by_cases h50 : 50 ≤ i
    · rw [if_pos h50] at h; exact absurd h (by simp)
    · rw [if_neg h50] at h
      by_cases hk : rowHasKeyword r = true
      · rw [if_pos hk] at h
        have hij : i = j := Option.some.inj h
        subst hij
        refine ⟨le_refl i, by omega, ⟨r, by simp, hk⟩, ?_⟩
        intro k hk' row hrow
        omega
      · rw [if_neg hk] at h
        obtain ⟨h1, h2, ⟨row, hg, hkw⟩, hmin⟩ := ih (i + 1) j h
        refine ⟨by omega, h2, ⟨row, ?_, hkw⟩, ?_⟩
        · have : j - i = (j - (i + 1)) + 1 := by omega
          rw [this]
          simpa using hg
        · intro k hk' row' hrow'
          cases k with
          | zero =>
            have hr : r = row' := by simpa using hrow'
            subst hr
            simpa using hk
          | succ k' =>
            have hk'' : k' < j - (i + 1) := by omega
            exact hmin k' hk'' row' (by simpa using hrow')

theorem findHeaderRowAux_none (l : List (List String)) :
    ∀ i, findHeaderRowAux i l = none →
      ∀ k row, i + k < 50 → l.get? k = some row → rowHasKeyword row = false := by
  induction l with
  | nil => intro i _ k row _ hg; exact absurd hg (by simp)
  | cons r rest ih =>
    intro i h k row hlt hg
    unfold findHeaderRowAux at h
    by_cases h50 : 50 ≤ i
    · omega
    · rw [if_neg h50] at h
      by_cases hk : rowHasKeyword r = true
      · rw [if_pos hk] at h; exact absurd h (by simp)
      · rw [if_neg hk] at h
        cases k with
        | zero =>
          have hr : r = row := by simpa using hg
          subst hr
          simpa using hk
        | succ k' =>
          exact ih (i + 1) h k' row (by omega) (by simpa using hg)

/-- A grid whose header keyword first appears in row 12 (rows 0 to 11 are
    title rows), followed by one data row. -/
def grid12 : List (List String) :=
  List.replicate 12 ["Report Title"] ++ [["Customer Name", "Total"], ["ACME", "100"]]

/-- A grid whose only keyword row sits past the 50-row scan window. -/
def gridNoKeyword : List (List String) :=
  List.replicate 55 ["data"] ++ [["Customer Name"]]

/-- A grid consisting of a header row with nothing below it. -/
def gridHeaderNoData : List (List String) := [["Customer Name", "Total"]]

/--
C7. The header locator scans at most the first 50 rows and picks the
lowest-index row containing a customer keyword; a grid whose only keyword
row is row 12 is still located; a grid with no keyword in the first 50
rows fails with HeaderNotFound; a located header with no data rows below
it fails with EmptyData; the failures carry no partial data.
-/
theorem header_scan_first_50 :
    (∀ (rows : List (List String)) (i : Nat), findHeaderRow rows = some i →
        i < 50 ∧ (∃ row, rows.get? i = some row ∧ rowHasKeyword row = true) ∧
        (∀ j, j < i → ∀ row, rows.get? j = some row → rowHasKeyword row = false)) ∧
    (∀ rows : List (List String), rows ≠ [] →
        (∀ j, j < 50 → ∀ row, rows.get? j = some row → rowHasKeyword row = false) →
        extractRecords rows = .error .HeaderNotFound) ∧
    extractRecords grid12 = .ok [[("Customer Name", "ACME"), ("Total", "100")]] ∧
    extractRecords gridNoKeyword = .error .HeaderNotFound ∧
    extractRecords gridHeaderNoData = .error .EmptyData := by
  have hsome : ∀ (rows : List (List String)) (i : Nat), findHeaderRow rows = some i →
      i < 50 ∧ (∃ row, rows.get? i = some row ∧ rowHasKeyword row = true) ∧
      (∀ j, j < i → ∀ row, rows.get? j = some row → rowHasKeyword row = false) := by
    intro rows i h
    obtain ⟨_, h2, h3, h4⟩ := findHeaderRowAux_some rows 0 i h
    exact ⟨h2, by simpa using h3, by simpa using h4⟩
  refine ⟨hsome, ?_, rfl, rfl, rfl⟩
  intro rows hne hno
  have hemp : rows.isEmpty = false := by
    cases rows
    · exact absurd rfl hne
    · rfl
  cases hf : findHeaderRow rows with
  | none =>
    unfold extractRecords
    rw [hemp, hf]
    rfl
  | some j =>
    obtain ⟨hj, ⟨row, hg, hkw⟩, _⟩ := hsome rows j hf
    rw [hno j hj row hg] at hkw
    exact absurd hkw (by simp)

/-- Witness for C7: the row-12 header grid is indeed located at index 12,
    within the 50-row window, with keyword-free rows above it. -/
theorem header_scan_first_50_witness :
    12 < 50 ∧ (∃ row, grid12.get? 12 = some row ∧ rowHasKeyword row = true) :=
  ⟨(header_scan_first_50.1 grid12 12 (by decide)).1,
    (header_scan_first_50.1 grid12 12 (by decide)).2.1⟩

/-! ### C9: customer-name skip rules -/

theorem mk_eq_empty_iff (l : List Char) : (⟨l⟩ : String) = "" ↔ l = [] := by
  constructor
  · intro h
    exact congrArg String.data h
  · intro h
    subst h
    rfl

theorem wordsAux_eq_nil_iff :
    ∀ (l cur : List Char),
      wordsAux l cur = [] ↔ (∀ c ∈ l, c.isWhitespace = true) ∧ cur = [] := by
  intro l
  induction l with
  | nil =>
    intro cur
    by_cases hcur : cur = [] <;> simp [wordsAux, hcur]
  | cons c cs ih =>
    intro cur
    by_cases hw : c.isWhitespace = true
    · by_cases hcur : cur = []
      · subst hcur
        simp [wordsAux, hw, ih]
      · simp [wordsAux, hw, hcur]
    · simp [wordsAux, Bool.not_eq_true _ ▸ hw, ih, hw]

theorem wordsAux_mem_ne_nil :
    ∀ (l cur : List Char) (w : List Char), w ∈ wordsAux l cur → w ≠ [] := by
  intro l
  induction l with
  | nil =>
    intro cur w hw
    unfold wordsAux at hw
    by_cases hcur : cur = []
    · rw [if_pos hcur] at hw; exact absurd hw (by simp)
    · rw [if_neg hcur] at hw
      have : w = cur.reverse := by simpa using hw
      subst this
      simpa using hcur
  | cons c cs ih =>
    intro cur w hw
    unfold wordsAux at hw
    by_cases hws : c.isWhitespace = true
    · rw [if_pos hws] at hw
      by_cases hcur : cur = []
      · rw [if_pos hcur] at hw
        exact ih [] w hw
      · rw [if_neg hcur] at hw
        rcases List.mem_cons.mp hw with rfl | hw
        · simpa using hcur
        · exact ih [] w hw
    · rw [if_neg hws] at hw
      exact ih (c :: cur) w hw

theorem joinSpace_ne_nil (ls : List (List Char)) (h : ls ≠ [])
    (hw : ∀ w ∈ ls, w ≠ []) : joinSpace ls ≠ [] := by
  cases ls with
  | nil => exact absurd rfl h
  | cons w rest =>
    cases rest with
    | nil => simpa [joinSpace] using hw w (by simp)
    | cons w2 r2 =>
      simp [joinSpace]

theorem all_ws_strTrim_empty (l : List Char) (h : ∀ c ∈ l, c.isWhitespace = true) :
    jsTrim l = [] := by
  unfold jsTrim
  rw [List.dropWhile_eq_nil_iff.mpr (fun x hx => h x hx)]
  rfl

theorem cleanCustomerName_ne_empty (raw : String) (h : ¬ strTrim raw = "") :
    ¬ cleanCustomerName raw = "" := by
  have hraw : ¬ raw = "" := by
    intro hcon
    subst hcon
    exact h rfl
  unfold cleanCustomerName
  rw [if_neg hraw]
  rw [mk_eq_empty_iff]
  have hwords : wordsOf raw.toList ≠ [] := by
    intro hcon
    have hall := ((wordsAux_eq_nil_iff raw.toList []).mp hcon).1
    exact h ((mk_eq_empty_iff _).mpr (all_ws_strTrim_empty raw.toList hall))
  exact joinSpace_ne_nil _ hwords (wordsAux_mem_ne_nil raw.toList [])

/-- A data row whose customer-name cell resolves to the literal `Total`. -/
def totalRow : Record := [("Customer Name", "Total"), ("Total", "100")]

/--
C9. The transaction builder emits nothing when the customer name is
absent or blank, and nothing when the cleaned name case-insensitively
contains `total` (a row resolving to `Total` yields zero transactions);
these are skips, not errors, and every emitted transaction has a
non-empty customer name whose lower-cased text does not contain `total`.
-/
theorem builder_skip_rules :
    (∀ (today : String) (idx now : Nat) (row : Record),
        findValue row custKeys = none → buildTransaction today idx now row = none) ∧
    (∀ (today : String) (idx now : Nat) (row : Record) (raw : String),
        findValue row custKeys = some raw → strTrim raw = "" →
        buildTransaction today idx now row = none) ∧
    (∀ (today : String) (idx now : Nat) (row : Record) (raw : String),
        findValue row custKeys = some raw →
        strContains (strLower (cleanCustomerName raw)) "total" = true →
        buildTransaction today idx now row = none) ∧
    (∀ (today : String) (idx now : Nat) (row : Record) (t : Transaction),
        buildTransaction today idx now row = some t →
        t.customerName ≠ "" ∧
          strContains (strLower t.customerName) "total" = false) ∧
    buildTransaction "2024-06-01" 0 0 totalRow = none := by
  refine ⟨?_, ?_, ?_, ?_, rfl⟩
  · intro today idx now row h
    unfold buildTransaction
    rw [h]
  · intro today idx now row raw h htrim
    unfold buildTransaction
    rw [h]
    simp [htrim]
  · intro today idx now row raw h htotal
    unfold buildTransaction
    rw [h]
    by_cases htrim : strTrim raw = ""
    · simp [htrim]
    · simp [htrim, htotal]
  · intro today idx now row t h
    obtain ⟨raw, _, htrim, htot, rfl⟩ := buildTransaction_some_eq today idx now row t h
    exact ⟨cleanCustomerName_ne_empty raw htrim, htot⟩

/-- Witness for C9: a row with no resolvable customer name and the
    `Total` row are both skipped. -/
theorem builder_skip_rules_witness :
    buildTransaction "2024-06-01" 0 0 [("Amount", "5")] = none ∧
      buildTransaction "2024-06-01" 1 0 totalRow = none :=
  ⟨builder_skip_rules.1 "2024-06-01" 0 0 [("Amount", "5")] (by decide),
    builder_skip_rules.2.2.1 "2024-06-01" 1 0 totalRow "Total" (by decide) (by decide)⟩

/-! ### C2: the merge stage -/

/--
C2. The merge stage selects exactly the file transactions matching the
target customer with dates in the inclusive window, retagged INVOICE with
rendering amount the absolute value of the original amount; selects the
manual transactions by the same criteria, retagged PAYMENT with rendering
amount the negated absolute value regardless of stored sign; and the
result is a date-sorted permutation of the concatenation of the two sets.
-/
theorem merge_stage_selection :
    ∀ (f m : List Transaction) (c : String) (cfg : StatementConfig),
      List.Perm (mergeTrxs f m c cfg)
        ((selectTrxs f c cfg).map
            (invRetag ((m.filter (fun t => t.customerName == c)).head?)) ++
          (selectTrxs m c cfg).map payRetag) ∧
      List.Sorted dateLe (mergeTrxs f m c cfg) ∧
      (∀ t : Transaction, t ∈ selectTrxs f c cfg ↔
          t ∈ f ∧ t.customerName = c ∧ strLe cfg.startDate t.trxDate = true ∧
            strLe t.trxDate cfg.endDate = true) ∧
      (∀ t : Transaction, t ∈ selectTrxs m c cfg ↔
          t ∈ m ∧ t.customerName = c ∧ strLe cfg.startDate t.trxDate = true ∧
            strLe t.trxDate cfg.endDate = true) ∧
      (∀ (r : Option Transaction) (t : Transaction),
          (invRetag r t).trxType = .INVOICE ∧
            (invRetag r t).calculatedAmount = t.originalAmount.abs ∧
            (invRetag r t).trxDate = t.trxDate ∧
            (invRetag r t).customerName = t.customerName ∧
            (invRetag r t).originalAmount = t.originalAmount) ∧
      (∀ t : Transaction,
          (payRetag t).trxType = .PAYMENT ∧
            (payRetag t).calculatedAmount = t.originalAmount.abs.neg ∧
            (payRetag t).trxDate = t.trxDate ∧
            (payRetag t).customerName = t.customerName ∧
            (payRetag t).originalAmount = t.originalAmount) := by
  intro f m c cfg
  have hdef : mergeTrxs f m c cfg =
      ((selectTrxs f c cfg).map
          (invRetag ((m.filter (fun t => t.customerName == c)).head?)) ++
        (selectTrxs m c cfg).map payRetag).insertionSort dateLe := rfl
  refine ⟨?_, ?_, ?_, ?_, fun r t => ⟨rfl, rfl, rfl, rfl, rfl⟩,
    fun t => ⟨rfl, rfl, rfl, rfl, rfl⟩⟩
  · rw [hdef]
    exact List.perm_insertionSort dateLe _
  · rw [hdef]
    exact List.sorted_insertionSort dateLe _
  · intro t
    simp [selectTrxs, List.mem_filter, Bool.and_eq_true, beq_iff_eq, and_assoc]
  · intro t
    simp [selectTrxs, List.mem_filter, Bool.and_eq_true, beq_iff_eq, and_assoc]

/-! ### C8: permutation invariance of the balances -/

theorem lexLe_antisymm :
    ∀ a b : List Char, lexLe a b = true → lexLe b a = true → a = b := by
  intro a
  induction a with
  | nil =>
    intro b h₁ h₂
    cases b with
    | nil => rfl
    | cons y ys => simp [lexLe] at h₂
  | cons x xs ih =>
    intro b h₁ h₂
    cases b with
    | nil => simp [lexLe] at h₁
    | cons y ys =>
      rcases lt_trichotomy x y with h | h | h
      · simp [lexLe, lt_asymm h, (ne_of_gt h : y ≠ x)] at h₂
      · subst h
        simp [lexLe, lt_irrefl] at h₁ h₂
        rw [ih ys h₁ h₂]
      · simp [lexLe, lt_asymm h, (ne_of_gt h : x ≠ y)] at h₁

theorem strLe_antisymm (a b : String) (h₁ : strLe a b = true)
    (h₂ : strLe b a = true) : a = b := by
  have h := lexLe_antisymm a.toList b.toList h₁ h₂
  cases a
  cases b
  exact congrArg String.mk h

/-- Two sorted permutations of each other with pairwise-distinct sort keys
    are equal, for any antisymmetric comparison. -/
theorem sorted_key_unique {α β : Type} (key : α → β) (le : β → β → Bool)
    (hanti : ∀ x y, le x y = true → le y x = true → x = y) :
    ∀ (l₁ l₂ : List α), l₁.Perm l₂ →
      l₁.Pairwise (fun a b => le (key a) (key b) = true) →
      l₂.Pairwise (fun a b => le (key a) (key b) = true) →
      (l₁.map key).Nodup → l₁ = l₂ := by
  intro l₁
  induction l₁ with
  | nil =>
    intro l₂ hp _ _ _
    exact (hp.symm.eq_nil).symm
  | cons a t₁ ih =>
    intro l₂ hp hs₁ hs₂ hnd
    cases l₂ with
    | nil => exact absurd hp.eq_nil (by simp)
    | cons b t₂ =>
      have hab : a = b := by
        by_cases hab : a = b
        · exact hab
        · have hb : b ∈ a :: t₁ := hp.mem_iff.mpr (by simp)
          have hbt : b ∈ t₁ := by
            rcases List.mem_cons.mp hb with h | h
            · exact absurd h.symm hab
            · exact h
          have ha : a ∈ b :: t₂ := hp.mem_iff.mp (by simp)
          have hat : a ∈ t₂ := by
            rcases List.mem_cons.mp ha with h | h
            · exact absurd h hab
            · exact h
          have h₁ : le (key a) (key b) = true :=
            (List.pairwise_cons.mp hs₁).1 b hbt
          have h₂ : le (key b) (key a) = true :=
            (List.pairwise_cons.mp hs₂).1 a hat
          have hkey : key a = key b := hanti _ _ h₁ h₂
          have : key a ∉ t₁.map key := (List.nodup_cons.mp hnd).1
          exact absurd (hkey ▸ List.mem_map_of_mem key hbt) this
      subst hab
      have ht : t₁ = t₂ :=
        ih t₂ hp.cons_inv (List.pairwise_cons.mp hs₁).2
          (List.pairwise_cons.mp hs₂).2 (List.nodup_cons.mp hnd).2
      rw [ht]

theorem runBalances_congr :
    ∀ (l₁ l₂ : List CalcTrx),
      l₁.map (fun t => t.calculatedAmount) = l₂.map (fun t => t.calculatedAmount) →
      ∀ b, runBalances b l₁ = runBalances b l₂ := by
  intro l₁
  induction l₁ with
  | nil =>
    intro l₂ h b
    have : l₂ = [] := by
      cases l₂
      · rfl
      · simp at h
    subst this
    rfl
  | cons t ts ih =>
    intro l₂ h b
    cases l₂ with
    | nil => simp at h
    | cons t₂ ts₂ =>
      simp only [List.map_cons, List.cons.injEq] at h
      show (b + t.calculatedAmount) :: runBalances (b + t.calculatedAmount) ts = _
      rw [h.1, ih ts₂ h.2]
      rfl

/--
C8. Reordering the insertion order of the input transaction collections
(without changing dates or amounts) never changes the final closing
balance, and when the merged ledger has no date ties the per-row
displayed balances are identical as well.
-/
theorem final_balance_permutation_invariant :
    ∀ (f f' m m' : List Transaction) (c : String) (cfg : StatementConfig),
      f.Perm f' → m.Perm m' →
      finalBalance (.num cfg.openingBalance) (mergeTrxs f m c cfg) =
          finalBalance (.num cfg.openingBalance) (mergeTrxs f' m' c cfg) ∧
      (((mergeTrxs f m c cfg).map (fun t => t.trxDate)).Nodup →
        runBalances (.num cfg.openingBalance) (mergeTrxs f m c cfg) =
          runBalances (.num cfg.openingBalance) (mergeTrxs f' m' c cfg)) := by
  intro f f' m m' c cfg hf hm
  have hproj : ∀ (mm : List Transaction) (l : List Transaction),
      ((l.map (invRetag ((mm.filter (fun t => t.customerName == c)).head?))).map
          (fun t : CalcTrx => (t.trxDate, t.calculatedAmount))) =
        l.map (fun t => (t.trxDate, t.originalAmount.abs)) := by
    intro mm l
    rw [List.map_map]
    rfl
  have hprojP : ∀ l : List Transaction,
      ((l.map payRetag).map (fun t : CalcTrx => (t.trxDate, t.calculatedAmount))) =
        l.map (fun t => (t.trxDate, t.originalAmount.abs.neg)) := by
    intro l
    rw [List.map_map]
    rfl
  have hdef : mergeTrxs f m c cfg =
      ((selectTrxs f c cfg).map
          (invRetag ((m.filter (fun t => t.customerName == c)).head?)) ++
        (selectTrxs m c cfg).map payRetag).insertionSort dateLe := rfl
  have hdef' : mergeTrxs f' m' c cfg =
      ((selectTrxs f' c cfg).map
          (invRetag ((m'.filter (fun t => t.customerName == c)).head?)) ++
        (selectTrxs m' c cfg).map payRetag).insertionSort dateLe := rfl
  have hselF : (selectTrxs f c cfg).Perm (selectTrxs f' c cfg) := hf.filter _
  have hselM : (selectTrxs m c cfg).Perm (selectTrxs m' c cfg) := hm.filter _
  have hP : ((mergeTrxs f m c cfg).map
        (fun t : CalcTrx => (t.trxDate, t.calculatedAmount))).Perm
      ((mergeTrxs f' m' c cfg).map
        (fun t : CalcTrx => (t.trxDate, t.calculatedAmount))) := by
    refine ((List.perm_insertionSort dateLe _).map _).trans
      (List.Perm.trans ?_ (((List.perm_insertionSort dateLe _).map _).symm))
    rw [List.map_append, List.map_append, hproj m, hproj m', hprojP, hprojP]
    exact (hselF.map _).append (hselM.map _)
  constructor
  · rw [finalBalance_eq_add_sum, finalBalance_eq_add_sum]
    congr 1
    have e₁ : (mergeTrxs f m c cfg).map (fun t => t.calculatedAmount) =
        ((mergeTrxs f m c cfg).map
          (fun t : CalcTrx => (t.trxDate, t.calculatedAmount))).map Prod.snd := by
      rw [List.map_map]
      rfl
    have e₂ : (mergeTrxs f' m' c cfg).map (fun t => t.calculatedAmount) =
        ((mergeTrxs f' m' c cfg).map
          (fun t : CalcTrx => (t.trxDate, t.calculatedAmount))).map Prod.snd := by
      rw [List.map_map]
      rfl
    rw [e₁, e₂]
    exact (hP.map Prod.snd).sum_eq
  · intro hnodup
    apply runBalances_congr
    have hkeys : (((mergeTrxs f m c cfg).map
        (fun t : CalcTrx => (t.trxDate, t.calculatedAmount))).map Prod.fst).Nodup := by
      rw [List.map_map]
      exact hnodup
    have hs₁ : ((mergeTrxs f m c cfg).map
        (fun t : CalcTrx => (t.trxDate, t.calculatedAmount))).Pairwise
        (fun a b => strLe a.1 b.1 = true) := by
      rw [List.pairwise_map]
      rw [hdef]
      exact List.sorted_insertionSort dateLe _
    have hs₂ : ((mergeTrxs f' m' c cfg).map
        (fun t : CalcTrx => (t.trxDate, t.calculatedAmount))).Pairwise
        (fun a b => strLe a.1 b.1 = true) := by
      rw [List.pairwise_map]
      rw [hdef']
      exact List.sorted_insertionSort dateLe _
    have heq := sorted_key_unique Prod.fst strLe strLe_antisymm _ _ hP hs₁ hs₂ hkeys
    have e₁ : (mergeTrxs f m c cfg).map (fun t => t.calculatedAmount) =
        ((mergeTrxs f m c cfg).map
          (fun t : CalcTrx => (t.trxDate, t.calculatedAmount))).map Prod.snd := by
      rw [List.map_map]
      rfl
    have e₂ : (mergeTrxs f' m' c cfg).map (fun t => t.calculatedAmount) =
        ((mergeTrxs f' m' c cfg).map
          (fun t : CalcTrx => (t.trxDate, t.calculatedAmount))).map Prod.snd := by
      rw [List.map_map]
      rfl
    rw [e₁, e₂, heq]

set_option maxRecDepth 8000 in
/-- Witness for C8: swapping two invoices in insertion order leaves both
    the final balance and (dates being distinct) every row balance alone. -/
theorem final_balance_permutation_invariant_witness :
    finalBalance (.num janCfg.openingBalance)
        (mergeTrxs [acmeInvoice, acmeInvoiceB] [acmePayment] "ACME" janCfg) =
      finalBalance (.num janCfg.openingBalance)
        (mergeTrxs [acmeInvoiceB, acmeInvoice] [acmePayment] "ACME" janCfg) ∧
    runBalances (.num janCfg.openingBalance)
        (mergeTrxs [acmeInvoice, acmeInvoiceB] [acmePayment] "ACME" janCfg) =
      runBalances (.num janCfg.openingBalance)
        (mergeTrxs [acmeInvoiceB, acmeInvoice] [acmePayment] "ACME" janCfg) :=
  ⟨(final_balance_permutation_invariant [acmeInvoice, acmeInvoiceB]
      [acmeInvoiceB, acmeInvoice] [acmePayment] [acmePayment] "ACME" janCfg
      (List.Perm.swap acmeInvoiceB acmeInvoice []) (List.Perm.refl _)).1,
    (final_balance_permutation_invariant [acmeInvoice, acmeInvoiceB]
      [acmeInvoiceB, acmeInvoice] [acmePayment] [acmePayment] "ACME" janCfg
      (List.Perm.swap acmeInvoiceB acmeInvoice []) (List.Perm.refl _)).2
      (by decide)⟩

end SOA
